import Mathlib

/-!
Verification of the Slack User Exporter reconciliation pipeline
(`src/main.js`) against its specification.

The JavaScript source is shallowly embedded: JS strings become `String`,
JS arrays become `List`, a thrown `Error` becomes `Except.error` carrying
a `JsError`, the insertion-ordered JS `Map` becomes an association list
with JS `Map.set` semantics, and the Google Sheet becomes a list of named
sheets, each a list of rows of cells.  Remote calls (`UrlFetchApp.fetch`)
are modelled by oracle functions supplied as parameters.
-/

set_option autoImplicit false

namespace SlackUserExporter

/-- Errors surfaced by the embedded code: `err` models a deliberate
`throw new Error(msg)`, `typeError` models a runtime `TypeError` crash
(e.g. reading a property of `undefined`). -/
inductive JsError where
  | err : String → JsError
  | typeError : String → JsError
deriving Repr, DecidableEq

/-- The `name` field of a `User`: `{ id, name }` extracted from the
display name (class `User`, src/main.js lines 258-268). -/
structure DisplayName where
  id : String
  name : String
deriving Repr, DecidableEq

/-- A parsed Slack user (class `User`, src/main.js lines 258-306). -/
structure User where
  userId : String
  name : DisplayName
deriving Repr, DecidableEq

/-- The `profile` substructure of a raw Slack user object.  A missing or
empty `display_name` is modelled by `""` (both are falsy in JS, and the
code only tests falsiness). -/
structure SlackProfile where
  display_name : String
deriving Repr, DecidableEq

/-- A raw Slack user object as returned by `users.info`.  `profile = none`
models a missing/falsy `profile` field; an entirely absent user object is
modelled by `Option SlackUser = none` at the call site. -/
structure SlackUser where
  id : String
  profile : Option SlackProfile
deriving Repr, DecidableEq

/-- JS `string.split(" ")` on the character list: splits on every single
space character, keeping empty tokens (so `"a  b"` gives
`["a", "", "b"]` and `""` gives `[""]`), exactly as
`String.prototype.split` with a one-character separator. -/
def jsSplitSpaceAux : List Char → List String
  | [] => [""]
  | c :: rest =>
    let r := jsSplitSpaceAux rest
    if c = ' ' then "" :: r
    else
      match r with
      | [] => [String.mk [c]]
      | t :: ts => String.mk (c :: t.data) :: ts

/-- JS `s.split(" ")` (src/main.js line 288). -/
def jsSplitSpace (s : String) : List String :=
  jsSplitSpaceAux s.data

/-- The destructuring `const [id, name, ...others] = displayName.split(" ")`
followed by the guard `if (!id || !name || others.length > 0)` in
`User.parseFromSlackUser` (src/main.js lines 288-293).  A token list of
any shape other than two entries makes the guard fire (one entry leaves
`name` undefined, three or more leave `others` nonempty, and `split`
never returns an empty array). -/
def parseTokens (uid raw : String) (toks : List String) : Except JsError User :=
  match toks with
  | [i, n] =>
    if i = "" ∨ n = "" then
      .error (.err ("Invalid display name format: " ++ raw))
    else
      .ok ⟨uid, ⟨i, n⟩⟩
  | _ => .error (.err ("Invalid display name format: " ++ raw))

/-- Embedding of `User.parseFromSlackUser` (src/main.js lines 276-294).
The guards are modelled in source order: falsy `user`/`user.profile`,
falsy `display_name`, then the split-and-destructure step
(`parseTokens`). -/
def parseFromSlackUser (user : Option SlackUser) : Except JsError User :=
  match user with
  | none => .error (.err "Invalid user object provided")
  | some u =>
    match u.profile with
    | none => .error (.err "Invalid user object provided")
    | some p =>
      if p.display_name = "" then
        .error (.err ("displayName is not found: " ++ p.display_name))
      else
        parseTokens u.id p.display_name (jsSplitSpace p.display_name)

/-- Splitting the empty string gives one empty token, as in JS. -/
theorem jsSplitSpace_empty : jsSplitSpace "" = [""] := rfl

/-- If the split of `s` has two tokens then `s` is nonempty. -/
theorem split_two_imp_ne_empty (s : String)
    (a b : String) (hs : jsSplitSpace s = [a, b]) :
    s ≠ "" := by
  intro h
  rw [h, jsSplitSpace_empty] at hs
  simp at hs

/-- C3: for every raw display-name string, parse succeeds exactly when
splitting the string on spaces yields exactly two non-empty tokens, in
which case those two tokens are returned verbatim as the identity
(`shortId` = `name.id`, `displayName` = `name.name`); any other split
shape (zero, one, or more than two tokens, or an empty token) makes
parse fail. -/
theorem parseFromSlackUser_ok_iff (uid raw : String) (u : User) :
    parseFromSlackUser (some ⟨uid, some ⟨raw⟩⟩) = .ok u ↔
      (jsSplitSpace raw = [u.name.id, u.name.name] ∧
        u.name.id ≠ "" ∧ u.name.name ≠ "" ∧ u.userId = uid) := by
  by_cases hraw : raw = ""
  · subst hraw
    simp only [parseFromSlackUser, if_pos rfl]
    constructor
    · intro h; simp at h
    · rintro ⟨h1, h2, h3, h4⟩
      rw [jsSplitSpace_empty] at h1
      simp at h1
  · simp only [parseFromSlackUser, if_neg hraw]
    rcases hsplit : jsSplitSpace raw with _ | ⟨i, _ | ⟨n, _ | ⟨x, xs⟩⟩⟩
    · simp only [parseTokens]
      constructor
      · intro h; simp at h
      · rintro ⟨h1, h2, h3, h4⟩; simp at h1
    · simp only [parseTokens]
      constructor
      · intro h; simp at h
      · rintro ⟨h1, h2, h3, h4⟩; simp at h1
    · simp only [parseTokens]
      by_cases hin : i = "" ∨ n = ""
      · rw [if_pos hin]
        constructor
        · intro h; simp at h
        · rintro ⟨h1, h2, h3, h4⟩
          obtain ⟨hi, hn⟩ : i = u.name.id ∧ n = u.name.name := by
            simpa using h1
          rcases hin with hin | hin
          · exact absurd (hi ▸ hin) h2
          · exact absurd (hn ▸ hin) h3
      · rw [if_neg hin]
        push_neg at hin
        constructor
        · intro h
          rw [Except.ok.injEq] at h
          subst h
          exact ⟨rfl, hin.1, hin.2, rfl⟩
        · rintro ⟨h1, h2, h3, h4⟩
          obtain ⟨hi, hn⟩ : i = u.name.id ∧ n = u.name.name := by
            simpa using h1
          rcases u with ⟨uu, ⟨ui, un⟩⟩
          simp only at hi hn h4
          rw [Except.ok.injEq]
          simp [hi, hn, h4]
    · simp only [parseTokens]
      constructor
      · intro h; simp at h
      · rintro ⟨h1, h2, h3, h4⟩; simp at h1

/-! ## The JS `Map` and the merge step (`mergeAndUpdateUsers`) -/

/-- A JS `Map` from user ids to users, modelled as an insertion-ordered
association list.  `jsMapSet` is `Map.prototype.set`: if the key is
already present its value is updated in place (the entry keeps its
position), otherwise the new entry is appended at the end. -/
def jsMapSet (m : List (String × User)) (key : String) (v : User) :
    List (String × User) :=
  if m.any (fun p => p.1 == key) then
    m.map (fun p => if p.1 == key then (key, v) else p)
  else
    m ++ [(key, v)]

/-- JS `Map.prototype.values()`, in insertion order. -/
def jsMapValues (m : List (String × User)) : List User :=
  m.map (·.2)

/-- The `reduce` in `mergeAndUpdateUsers` (src/main.js lines 351-354):
fold `acc.set(user.userId, user)` over a user list, starting from `m`. -/
def insertAllUsers (m : List (String × User)) (us : List User) :
    List (String × User) :=
  us.foldl (fun acc user => jsMapSet acc user.userId user) m

/-- The merge step of `mergeAndUpdateUsers` (src/main.js lines 351-356):
`Array.from([...existingUsers, ...newUsers].reduce(set, new Map()).values())`. -/
def mergeUsersList (existingUsers newUsers : List User) : List User :=
  jsMapValues (insertAllUsers [] (existingUsers ++ newUsers))

/-- The user that ends up at an existing entry after the overlay: the
entry for a key hit by some newly fetched user is replaced by that user,
all other entries are unchanged. -/
def overlayUser (newUsers : List User) (u : User) : User :=
  match newUsers.find? (fun v => v.userId == u.userId) with
  | some v => v
  | none => u

/-- Pair-level version of `overlayUser`, acting on map entries. -/
def jsMapOverlay (us : List User) (p : String × User) : String × User :=
  match us.find? (fun v => v.userId == p.1) with
  | some v => (p.1, v)
  | none => p

theorem jsMapOverlay_fst (us : List User) (p : String × User) :
    (jsMapOverlay us p).1 = p.1 := by
  unfold jsMapOverlay
  cases us.find? (fun v => v.userId == p.1) <;> rfl

theorem jsMapOverlay_snd (us : List User) (u : User) :
    (jsMapOverlay us (u.userId, u)).2 = overlayUser us u := by
  unfold jsMapOverlay overlayUser
  cases us.find? (fun v => v.userId == u.userId) <;> rfl

/-- A user list with no duplicate ids has no entry with id `k` once we
know `k` is not among its ids. -/
theorem find?_userId_eq_none (us : List User) (k : String)
    (h : k ∉ us.map (·.userId)) :
    us.find? (fun v => v.userId == k) = none := by
  rw [List.find?_eq_none]
  intro v hv hbeq
  exact h (beq_iff_eq.mp hbeq ▸ List.mem_map_of_mem _ hv)

/-- Distributing `any` over `map`, for maps that change the element
type. -/
theorem list_any_comp_map {α β : Type} (f : α → β) (l : List α) (p : β → Bool) :
    (l.map f).any p = l.any (p ∘ f) := by
  induction l with
  | nil => rfl
  | cons a l ih => simp only [List.map_cons, List.any_cons, ih]; rfl

/-- Characterisation of folding `Map.set` over a user list with
pairwise-distinct ids, starting from an arbitrary map: entries of the
start map are overlaid in place, and users with fresh keys are appended
in order. -/
theorem insertAllUsers_eq (us : List User) :
    ∀ m : List (String × User), (us.map (·.userId)).Nodup →
      insertAllUsers m us =
        m.map (jsMapOverlay us) ++
          (us.filter (fun v => !(m.any (fun p => p.1 == v.userId)))).map
            (fun u => (u.userId, u)) := by
  induction us with
  | nil =>
    intro m _
    have hid : jsMapOverlay [] = id := funext fun p => rfl
    simp only [insertAllUsers, List.foldl_nil, List.filter_nil, List.map_nil,
      List.append_nil, hid, List.map_id]
  | cons u rest ih =>
    intro m hnd
    rw [List.map_cons, List.nodup_cons] at hnd
    obtain ⟨hnotin, hndrest⟩ := hnd
    have hfind : rest.find? (fun v => v.userId == u.userId) = none :=
      find?_userId_eq_none rest u.userId hnotin
    have hov : jsMapOverlay rest (u.userId, u) = (u.userId, u) := by
      simp [jsMapOverlay, hfind]
    have hstep : insertAllUsers m (u :: rest) =
        insertAllUsers (jsMapSet m u.userId u) rest := rfl
    rw [hstep]
    by_cases hva : (m.any fun p => p.1 == u.userId) = true
    · have hset : jsMapSet m u.userId u =
          m.map (fun p => if p.1 == u.userId then (u.userId, u) else p) := by
        simp [jsMapSet, hva]
      rw [hset, ih _ hndrest]
      congr 1
      · rw [List.map_map]
        apply List.map_congr_left
        intro p _
        by_cases hp : (p.1 == u.userId) = true
        · have hp' : p.1 = u.userId := beq_iff_eq.mp hp
          have hf2 : (u :: rest).find? (fun v => v.userId == p.1) = some u :=
            List.find?_cons_of_pos _ (by simp [hp'])
          show jsMapOverlay rest (if p.1 == u.userId then (u.userId, u) else p) =
            jsMapOverlay (u :: rest) p
          rw [if_pos hp, hov]
          simp only [jsMapOverlay, hf2]
          rw [hp']
        · have hf3 : (u :: rest).find? (fun v => v.userId == p.1) =
              rest.find? (fun v => v.userId == p.1) :=
            List.find?_cons_of_neg _
              (fun hcontra => hp (beq_iff_eq.mpr (beq_iff_eq.mp hcontra).symm))
          show jsMapOverlay rest (if p.1 == u.userId then (u.userId, u) else p) =
            jsMapOverlay (u :: rest) p
          rw [if_neg hp]
          simp only [jsMapOverlay, hf3]
      · have hrw : rest.filter
            (fun v => !((m.map fun p =>
              if p.1 == u.userId then (u.userId, u) else p).any
                (fun p => p.1 == v.userId))) =
            rest.filter (fun v => !(m.any (fun p => p.1 == v.userId))) := by
          apply List.filter_congr
          intro v _
          show (!((m.map fun p =>
              if p.1 == u.userId then (u.userId, u) else p).any
                (fun p => p.1 == v.userId))) =
            !(m.any (fun p => p.1 == v.userId))
          rw [list_any_comp_map]
          have hpt : ((fun p => p.1 == v.userId) ∘
              fun p => if p.1 == u.userId then (u.userId, u) else p) =
              fun p : String × User => p.1 == v.userId := by
            funext p
            by_cases hp : (p.1 == u.userId) = true
            · simp only [Function.comp_apply, if_pos hp]
              simp [beq_iff_eq.mp hp]
            · simp only [Function.comp_apply, if_neg hp]
          rw [hpt]
        rw [hrw, List.filter_cons, if_neg (by simp [hva])]
    · have hva' : (m.any fun p => p.1 == u.userId) = false := by
        revert hva
        cases m.any fun p => p.1 == u.userId <;> simp
      have hset : jsMapSet m u.userId u = m ++ [(u.userId, u)] := by
        simp [jsMapSet, hva']
      rw [hset, ih _ hndrest, List.map_append, List.map_cons, List.map_nil, hov]
      have hkeys : ∀ p ∈ m, ¬(p.1 = u.userId) := by
        intro p hp he
        have h0 := List.any_eq_false.mp hva' p hp
        exact h0 (by simp [he])
      have hm : m.map (jsMapOverlay rest) = m.map (jsMapOverlay (u :: rest)) := by
        apply List.map_congr_left
        intro p hp
        have hf3 : (u :: rest).find? (fun v => v.userId == p.1) =
            rest.find? (fun v => v.userId == p.1) :=
          List.find?_cons_of_neg _
            (fun hcontra => hkeys p hp (beq_iff_eq.mp hcontra).symm)
        simp only [jsMapOverlay, hf3]
      have hflt : rest.filter
          (fun v => !((m ++ [(u.userId, u)]).any (fun p => p.1 == v.userId))) =
          rest.filter (fun v => !(m.any (fun p => p.1 == v.userId))) := by
        apply List.filter_congr
        intro v hv
        have hvne : (u.userId == v.userId) = false := by
          simp only [beq_eq_false_iff_ne, ne_eq]
          intro he
          exact hnotin (he ▸ List.mem_map_of_mem _ hv)
        simp only [List.any_append, List.any_cons, List.any_nil, hvne,
          Bool.or_false]
      rw [hflt, List.filter_cons, if_pos (by simp [hva']), hm]
      simp [List.append_assoc]

/-- Explicit form of the merge of two user lists with pairwise-distinct
ids: existing entries stay in place (overwritten by a newly fetched user
with the same id where one exists), then new-key fetched users are
appended in fetch order. -/
theorem mergeUsersList_eq (existingUsers newUsers : List User)
    (hex : (existingUsers.map (·.userId)).Nodup)
    (hnew : (newUsers.map (·.userId)).Nodup) :
    mergeUsersList existingUsers newUsers =
      existingUsers.map (overlayUser newUsers) ++
        newUsers.filter
          (fun v => !(existingUsers.any (fun u => u.userId == v.userId))) := by
  unfold mergeUsersList insertAllUsers
  rw [List.foldl_append]
  have h1 : existingUsers.foldl (fun acc user => jsMapSet acc user.userId user) [] =
      existingUsers.map (fun u => (u.userId, u)) := by
    have := insertAllUsers_eq existingUsers [] hex
    simpa [insertAllUsers] using this
  rw [h1]
  have h2 := insertAllUsers_eq newUsers (existingUsers.map (fun u => (u.userId, u))) hnew
  unfold insertAllUsers at h2
  rw [h2]
  unfold jsMapValues
  rw [List.map_append, List.map_map, List.map_map, List.map_map]
  congr 1
  · apply List.map_congr_left
    intro u _
    simpa using jsMapOverlay_snd newUsers u
  · have hpred : newUsers.filter
        (fun v => !((existingUsers.map (fun u => (u.userId, u))).any
          (fun p => p.1 == v.userId))) =
        newUsers.filter
          (fun v => !(existingUsers.any (fun u => u.userId == v.userId))) := by
      apply List.filter_congr
      intro v _
      show (!((existingUsers.map (fun u => (u.userId, u))).any
          (fun p => p.1 == v.userId))) =
        !(existingUsers.any (fun u => u.userId == v.userId))
      rw [list_any_comp_map]
      rfl
    rw [hpred]
    have hsnd : ∀ l : List User,
        l.map ((fun (p : String × User) => p.2) ∘ fun u => (u.userId, u)) = l := by
      intro l
      induction l with
      | nil => rfl
      | cons a l ih => rw [List.map_cons, ih]; rfl
    exact hsnd _

/-- Overlaying never changes an entry's id. -/
theorem overlayUser_userId (newUsers : List User) (u : User) :
    (overlayUser newUsers u).userId = u.userId := by
  cases h : newUsers.find? (fun v => v.userId == u.userId) with
  | none => simp [overlayUser, h]
  | some v =>
    simp only [overlayUser, h]
    have hb := List.find?_some h
    simp only [beq_iff_eq] at hb
    exact hb

/-- In a user list with pairwise-distinct ids, searching for the id of a
member finds exactly that member. -/
theorem find?_self_of_nodup (us : List User) (v : User)
    (hnd : (us.map (·.userId)).Nodup) (hv : v ∈ us) :
    us.find? (fun w => w.userId == v.userId) = some v := by
  induction us with
  | nil => cases hv
  | cons w rest ih =>
    rw [List.map_cons, List.nodup_cons] at hnd
    obtain ⟨hnotin, hndrest⟩ := hnd
    rcases List.mem_cons.mp hv with hv | hv
    · subst hv
      exact List.find?_cons_of_pos _ (by simp)
    · refine (List.find?_cons_of_neg _ ?_).trans (ih hndrest hv)
      intro hcontra
      exact hnotin (by
        rw [beq_iff_eq.mp hcontra]
        exact List.mem_map_of_mem _ hv)

/-- Searching by id commutes with mapping an id-preserving function. -/
theorem find?_map_id_preserving (ov : User → User)
    (hov : ∀ u, (ov u).userId = u.userId) (k : String) (l : List User) :
    (l.map ov).find? (fun w => w.userId == k) =
      (l.find? (fun u => u.userId == k)).map ov := by
  induction l with
  | nil => rfl
  | cons a l ih =>
    rw [List.map_cons]
    by_cases ha : (a.userId == k) = true
    · have hpa : (fun w : User => w.userId == k) (ov a) = true := by
        show ((ov a).userId == k) = true
        rw [hov]; exact ha
      rw [List.find?_cons_of_pos (p := fun w => w.userId == k) (a := ov a)
        (List.map ov l) hpa,
        List.find?_cons_of_pos (p := fun u => u.userId == k) (a := a) l ha]
      rfl
    · have hna : ¬(fun w : User => w.userId == k) (ov a) = true := by
        show ¬((ov a).userId == k) = true
        rw [hov]; exact ha
      rw [List.find?_cons_of_neg (p := fun w => w.userId == k) (a := ov a)
        (List.map ov l) hna,
        List.find?_cons_of_neg (p := fun u => u.userId == k) (a := a) l ha, ih]

/-- If an id occurs in the list, the search returns some member carrying
exactly that id. -/
theorem find?_userId_isSome (us : List User) (k : String)
    (h : k ∈ us.map (·.userId)) :
    ∃ u0, us.find? (fun u => u.userId == k) = some u0 ∧ u0.userId = k := by
  obtain ⟨u, hu, huk⟩ := List.mem_map.mp h
  have hs : (us.find? (fun u => u.userId == k)).isSome :=
    List.find?_isSome.mpr ⟨u, hu, by simp [huk]⟩
  obtain ⟨u0, h0⟩ := Option.isSome_iff_exists.mp hs
  have hb := List.find?_some h0
  simp only [beq_iff_eq] at hb
  exact ⟨u0, h0, hb⟩

/-- C9: although the spec disclaims any ordering guarantee, the merged
output order is deterministic: entries whose id occurs in the existing
stored list appear first, in the stored list's order (an entry
overwritten by a fetched user keeps the stored position, via
`overlayUser`), followed by the fetched users with new keys in fetch
order. -/
theorem mergeUsersList_deterministic_order (existingUsers newUsers : List User)
    (hex : (existingUsers.map (·.userId)).Nodup)
    (hnew : (newUsers.map (·.userId)).Nodup) :
    mergeUsersList existingUsers newUsers =
      existingUsers.map (overlayUser newUsers) ++
        newUsers.filter
          (fun v => !(existingUsers.any (fun u => u.userId == v.userId))) :=
  mergeUsersList_eq existingUsers newUsers hex hnew

/-- Concrete run of C9: an existing store `[U1, U2]` merged with a fetch
`[U2 (updated), U3]` keeps `U1` and the overwritten `U2` in stored
positions and appends `U3`. -/
theorem mergeUsersList_deterministic_order_witness :
    ((([⟨"U1", ⟨"a", "Alice"⟩⟩, ⟨"U2", ⟨"b", "Bob"⟩⟩] : List User).map
        (·.userId)).Nodup ∧
      (([⟨"U2", ⟨"b2", "Bobby"⟩⟩, ⟨"U3", ⟨"c", "Carol"⟩⟩] : List User).map
        (·.userId)).Nodup) ∧
    mergeUsersList [⟨"U1", ⟨"a", "Alice"⟩⟩, ⟨"U2", ⟨"b", "Bob"⟩⟩]
        [⟨"U2", ⟨"b2", "Bobby"⟩⟩, ⟨"U3", ⟨"c", "Carol"⟩⟩] =
      ([⟨"U1", ⟨"a", "Alice"⟩⟩, ⟨"U2", ⟨"b", "Bob"⟩⟩] : List User).map
          (overlayUser [⟨"U2", ⟨"b2", "Bobby"⟩⟩, ⟨"U3", ⟨"c", "Carol"⟩⟩]) ++
        ([⟨"U2", ⟨"b2", "Bobby"⟩⟩, ⟨"U3", ⟨"c", "Carol"⟩⟩] : List User).filter
          (fun v => !(([⟨"U1", ⟨"a", "Alice"⟩⟩, ⟨"U2", ⟨"b", "Bob"⟩⟩] :
            List User).any (fun u => u.userId == v.userId))) :=
  ⟨⟨by decide, by decide⟩,
    mergeUsersList_deterministic_order _ _ (by decide) (by decide)⟩

/-- C8: merge is idempotent: merging a duplicate-free set of users with
itself yields the same set, with no duplicated entries. -/
theorem mergeUsersList_idempotent (users : List User)
    (h : (users.map (·.userId)).Nodup) :
    mergeUsersList users users = users := by
  rw [mergeUsersList_eq users users h h]
  have h2 : users.filter
      (fun v => !(users.any (fun u => u.userId == v.userId))) = [] := by
    rw [List.filter_eq_nil_iff]
    intro v hv
    have : users.any (fun u => u.userId == v.userId) = true :=
      List.any_eq_true.mpr ⟨v, hv, by simp⟩
    simp [this]
  rw [h2, List.append_nil]
  have h3 : ∀ u ∈ users, overlayUser users u = u := by
    intro u hu
    simp only [overlayUser, find?_self_of_nodup users u h hu]
  calc users.map (overlayUser users)
      = users.map id := List.map_congr_left h3
    _ = users := List.map_id users

/-- Concrete run of C8: a two-member set merged with itself is returned
unchanged. -/
theorem mergeUsersList_idempotent_witness :
    (([⟨"U1", ⟨"a", "Alice"⟩⟩, ⟨"U2", ⟨"b", "Bob"⟩⟩] : List User).map
        (·.userId)).Nodup ∧
    mergeUsersList [⟨"U1", ⟨"a", "Alice"⟩⟩, ⟨"U2", ⟨"b", "Bob"⟩⟩]
        [⟨"U1", ⟨"a", "Alice"⟩⟩, ⟨"U2", ⟨"b", "Bob"⟩⟩] =
      [⟨"U1", ⟨"a", "Alice"⟩⟩, ⟨"U2", ⟨"b", "Bob"⟩⟩] :=
  ⟨by decide, mergeUsersList_idempotent _ (by decide)⟩

/-- C1: for duplicate-free existing and fetched collections, the merge
contains exactly one member per id (its id list is duplicate-free and its
key set is exactly the union of the two key sets); a key present in the
fetch maps to the fetched member (last-write-wins, covering both the
collision case and the fetch-only case), and a key present only in the
store maps to the stored member unchanged. -/
theorem mergeUsersList_dedup_last_write_wins
    (existingUsers newUsers : List User)
    (hex : (existingUsers.map (·.userId)).Nodup)
    (hnew : (newUsers.map (·.userId)).Nodup) :
    ((mergeUsersList existingUsers newUsers).map (·.userId)).Nodup ∧
      (∀ k, k ∈ (mergeUsersList existingUsers newUsers).map (·.userId) ↔
        (k ∈ existingUsers.map (·.userId) ∨ k ∈ newUsers.map (·.userId))) ∧
      (∀ v ∈ newUsers,
        (mergeUsersList existingUsers newUsers).find?
          (fun w => w.userId == v.userId) = some v) ∧
      (∀ u ∈ existingUsers, u.userId ∉ newUsers.map (·.userId) →
        (mergeUsersList existingUsers newUsers).find?
          (fun w => w.userId == u.userId) = some u) := by
  rw [mergeUsersList_eq existingUsers newUsers hex hnew]
  have hovid : ∀ u, (overlayUser newUsers u).userId = u.userId :=
    overlayUser_userId newUsers
  have hovkeys : (existingUsers.map (overlayUser newUsers)).map (·.userId) =
      existingUsers.map (·.userId) := by
    rw [List.map_map]
    apply List.map_congr_left
    intro u _
    exact hovid u
  have hfltnd : ((newUsers.filter
      (fun v => !(existingUsers.any (fun u => u.userId == v.userId)))).map
        (·.userId)).Nodup :=
    List.Nodup.sublist (List.Sublist.map _ (List.filter_sublist _)) hnew
  have hfltmem : ∀ k, k ∈ (newUsers.filter
      (fun v => !(existingUsers.any (fun u => u.userId == v.userId)))).map
        (·.userId) →
      k ∈ newUsers.map (·.userId) ∧ k ∉ existingUsers.map (·.userId) := by
    intro k hk
    obtain ⟨v, hv, hvk⟩ := List.mem_map.mp hk
    obtain ⟨hvn, hq⟩ := List.mem_filter.mp hv
    refine ⟨hvk ▸ List.mem_map_of_mem _ hvn, ?_⟩
    intro hcon
    obtain ⟨u, hu, huk⟩ := List.mem_map.mp hcon
    have hq' : existingUsers.any (fun u => u.userId == v.userId) = true :=
      List.any_eq_true.mpr ⟨u, hu, by rw [beq_iff_eq, huk, ← hvk]⟩
    simp [hq'] at hq
  have hmemflt : ∀ v ∈ newUsers, v.userId ∉ existingUsers.map (·.userId) →
      v ∈ newUsers.filter
        (fun v => !(existingUsers.any (fun u => u.userId == v.userId))) := by
    intro v hv hnk
    apply List.mem_filter.mpr
    refine ⟨hv, ?_⟩
    have hfa : existingUsers.any (fun u => u.userId == v.userId) = false := by
      apply List.any_eq_false.mpr
      intro u hu hcon
      exact hnk (by rw [← beq_iff_eq.mp hcon]; exact List.mem_map_of_mem _ hu)
    simp [hfa]
  refine ⟨?_, ?_, ?_, ?_⟩
  · rw [List.map_append, List.nodup_append]
    exact ⟨by rw [hovkeys]; exact hex, hfltnd,
      fun k hk1 hk2 => (hfltmem k hk2).2 (by rw [← hovkeys]; exact hk1)⟩
  · intro k
    rw [List.map_append, List.mem_append, hovkeys]
    constructor
    · rintro (hk | hk)
      · exact Or.inl hk
      · exact Or.inr (hfltmem k hk).1
    · rintro (hk | hk)
      · exact Or.inl hk
      · by_cases hk2 : k ∈ existingUsers.map (·.userId)
        · exact Or.inl hk2
        · obtain ⟨v, hv, hvk⟩ := List.mem_map.mp hk
          subst hvk
          exact Or.inr (List.mem_map_of_mem _ (hmemflt v hv hk2))
  · intro v hv
    rw [List.find?_append]
    by_cases hvk : v.userId ∈ existingUsers.map (·.userId)
    · obtain ⟨u0, h0, h0k⟩ := find?_userId_isSome existingUsers v.userId hvk
      have h1 : (existingUsers.map (overlayUser newUsers)).find?
          (fun w => w.userId == v.userId) = some (overlayUser newUsers u0) := by
        rw [find?_map_id_preserving (overlayUser newUsers) hovid v.userId
          existingUsers, h0]
        rfl
      have h2 : overlayUser newUsers u0 = v := by
        simp only [overlayUser, h0k]
        rw [find?_self_of_nodup newUsers v hnew hv]
      rw [h1, h2]
      rfl
    · have h1 : (existingUsers.map (overlayUser newUsers)).find?
          (fun w => w.userId == v.userId) = none := by
        rw [find?_map_id_preserving (overlayUser newUsers) hovid v.userId
          existingUsers, find?_userId_eq_none existingUsers v.userId hvk]
        rfl
      rw [h1]
      have hor : ∀ x : Option User, Option.or none x = x := fun x => rfl
      rw [hor]
      exact find?_self_of_nodup _ v hfltnd (hmemflt v hv hvk)
  · intro u hu hk
    rw [List.find?_append]
    have hovu : overlayUser newUsers u = u := by
      simp only [overlayUser, find?_userId_eq_none newUsers u.userId hk]
    have h1 : (existingUsers.map (overlayUser newUsers)).find?
        (fun w => w.userId == u.userId) = some (overlayUser newUsers u) := by
      rw [find?_map_id_preserving (overlayUser newUsers) hovid u.userId
        existingUsers, find?_self_of_nodup existingUsers u hex hu]
      rfl
    rw [h1, hovu]
    rfl

/-- Concrete run of C1: store `[U1 ↦ Alice]`, fetch
`[U1 ↦ Alicia, U2 ↦ Bob]`: the merge has duplicate-free keys
U1 and U2, `U1` maps to the fetched Alicia and `U2` to Bob. -/
theorem mergeUsersList_dedup_last_write_wins_witness :
    ((([⟨"U1", ⟨"a", "Alice"⟩⟩] : List User).map (·.userId)).Nodup ∧
      (([⟨"U1", ⟨"a2", "Alicia"⟩⟩, ⟨"U2", ⟨"b", "Bob"⟩⟩] : List User).map
        (·.userId)).Nodup) ∧
    (((mergeUsersList [⟨"U1", ⟨"a", "Alice"⟩⟩]
        [⟨"U1", ⟨"a2", "Alicia"⟩⟩, ⟨"U2", ⟨"b", "Bob"⟩⟩]).map
          (·.userId)).Nodup ∧
      (∀ k, k ∈ (mergeUsersList [⟨"U1", ⟨"a", "Alice"⟩⟩]
          [⟨"U1", ⟨"a2", "Alicia"⟩⟩, ⟨"U2", ⟨"b", "Bob"⟩⟩]).map (·.userId) ↔
        (k ∈ ([⟨"U1", ⟨"a", "Alice"⟩⟩] : List User).map (·.userId) ∨
          k ∈ ([⟨"U1", ⟨"a2", "Alicia"⟩⟩, ⟨"U2", ⟨"b", "Bob"⟩⟩] :
            List User).map (·.userId))) ∧
      (∀ v ∈ ([⟨"U1", ⟨"a2", "Alicia"⟩⟩, ⟨"U2", ⟨"b", "Bob"⟩⟩] : List User),
        (mergeUsersList [⟨"U1", ⟨"a", "Alice"⟩⟩]
          [⟨"U1", ⟨"a2", "Alicia"⟩⟩, ⟨"U2", ⟨"b", "Bob"⟩⟩]).find?
            (fun w => w.userId == v.userId) = some v) ∧
      (∀ u ∈ ([⟨"U1", ⟨"a", "Alice"⟩⟩] : List User),
        u.userId ∉ ([⟨"U1", ⟨"a2", "Alicia"⟩⟩, ⟨"U2", ⟨"b", "Bob"⟩⟩] :
          List User).map (·.userId) →
        (mergeUsersList [⟨"U1", ⟨"a", "Alice"⟩⟩]
          [⟨"U1", ⟨"a2", "Alicia"⟩⟩, ⟨"U2", ⟨"b", "Bob"⟩⟩]).find?
            (fun w => w.userId == u.userId) = some u)) :=
  ⟨⟨by decide, by decide⟩,
    mergeUsersList_dedup_last_write_wins _ _ (by decide) (by decide)⟩

/-! ## The spreadsheet store (`SpreadSheetApi`) -/

/-- A dynamically typed element of the `data` argument of
`validateData`: either a genuine row (a JS array of string cells) or some
non-array value.  `validateData` is the only place where a non-array
element can occur, so the non-array payload is irrelevant and elided. -/
inductive JsVal where
  | arr : List String → JsVal
  | nonArr : JsVal
deriving Repr, DecidableEq

/-- JS `Array.isArray(row)`. -/
def JsVal.isArr : JsVal → Bool
  | .arr _ => true
  | .nonArr => false

/-- JS `row.length` for an element of the data array.  In
`validateData` this is only evaluated after the all-arrays check
succeeded, so the `nonArr` branch is unreachable there. -/
def JsVal.rowLength : JsVal → Nat
  | .arr xs => xs.length
  | .nonArr => 0

/-- Embedding of `SpreadSheetApi.validateData` (src/main.js lines
170-179).  `data[0].length` is modelled faithfully: on the empty array
`data[0]` is `undefined` in JS, and reading `.length` from it raises a
`TypeError` before any row-length comparison happens.  (The
`!Array.isArray(data)` half of the first guard cannot fire in this typed
embedding, where the argument is always an array.) -/
def validateData (data : List JsVal) : Except JsError Unit :=
  if !(data.all JsVal.isArr) then
    .error (.err "Data must be a 2D array")
  else
    match data with
    | [] => .error (.typeError
        "Cannot read properties of undefined (reading 'length')")
    | first :: _ =>
      if data.all (fun row => row.rowLength == first.rowLength) then
        .ok ()
      else
        .error (.err "All rows must have the same length")

/-- Rows of one sheet, header row included. -/
abbrev Sheet := List (List String)

/-- The spreadsheet: named sheets in insertion order. -/
abbrev Spreadsheet := List (String × Sheet)

/-- Embedding of `getOrCreateSheet` (src/main.js lines 157-163): return
the spreadsheet unchanged when a sheet of that name exists, otherwise
insert an empty sheet of that name. -/
def getOrCreateSheet (ss : Spreadsheet) (name : String) : Spreadsheet :=
  if ss.any (fun p => p.1 == name) then ss else ss ++ [(name, [])]

/-- Read the rows of the named sheet (empty when absent; callers always
create the sheet first). -/
def readSheet (ss : Spreadsheet) (name : String) : Sheet :=
  match ss.find? (fun p => p.1 == name) with
  | some p => p.2
  | none => []

/-- Replace the contents of the named sheet (models `sheet.clear()`,
`appendRow` and `setValues` acting on the handle returned by
`getOrCreateSheet`). -/
def setSheet (ss : Spreadsheet) (name : String) (rows : Sheet) : Spreadsheet :=
  ss.map (fun p => if p.1 == name then (name, rows) else p)

/-- Embedding of `writeMapToSheet` (src/main.js lines 186-205): validate,
get or create the sheet, clear it, return if the data is empty, otherwise
write the header row and then the remaining rows, so the sheet ends up
holding exactly `data`. -/
def writeMapToSheet (data : List (List String)) (sheetName : String)
    (ss : Spreadsheet) : Except JsError Spreadsheet :=
  match validateData (data.map JsVal.arr) with
  | .error e => .error e
  | .ok _ =>
    let ss1 := getOrCreateSheet ss sheetName
    let ss2 := setSheet ss1 sheetName []
    match data with
    | [] => .ok ss2
    | header :: rest => .ok (setSheet ss2 sheetName (header :: rest))

/-- One output row per user: `[user.userId, user.name.id, user.name.name]`
(src/main.js line 227). -/
def userRow (u : User) : List String :=
  [u.userId, u.name.id, u.name.name]

/-- The skip guard of `writeUsersToSheet` (src/main.js line 221): a user
is kept iff `userId`, `name.id` and `name.name` are all truthy (for
strings: nonempty). -/
def isValidUser (u : User) : Bool :=
  !(u.userId == "") && !(u.name.id == "") && !(u.name.name == "")

/-- The row set built by `writeUsersToSheet` (src/main.js lines 216-228):
the header `["userId", "id", "name"]` followed by one row per valid
user, invalid users silently skipped. -/
def buildUserRows (users : List User) : List (List String) :=
  ["userId", "id", "name"] :: (users.filter isValidUser).map userRow

/-- Embedding of `writeUsersToSheet` (src/main.js lines 211-231). -/
def writeUsersToSheet (users : List User) (ss : Spreadsheet) :
    Except JsError Spreadsheet :=
  writeMapToSheet (buildUserRows users) "users" ss

/-- Positional deserialisation of a row back into a user
(src/main.js lines 247-250); out-of-range reads give `undefined` in JS,
modelled as `""`. -/
def rowToUser (row : List String) : User :=
  ⟨row.getD 0 "", ⟨row.getD 1 "", row.getD 2 ""⟩⟩

/-- Embedding of `readUsersFromSheet` (src/main.js lines 237-251): get or
create the `users` sheet, read all rows, return `[]` when there is at
most a header row, otherwise map every row after the header back into a
user.  (The side effect of `getOrCreateSheet` on the spreadsheet is
threaded explicitly by the caller in `mergeAndUpdateUsers`.) -/
def readUsersFromSheet (ss : Spreadsheet) : List User :=
  let rows := readSheet (getOrCreateSheet ss "users") "users"
  if rows.length ≤ 1 then []
  else (rows.drop 1).map rowToUser

/-- Embedding of `mergeAndUpdateUsers` (src/main.js lines 347-361): read
the existing users, merge with the newly fetched ones, write the merged
set back, and return it. -/
def mergeAndUpdateUsers (ss : Spreadsheet) (newUsers : List User) :
    Except JsError (Spreadsheet × List User) :=
  let ss1 := getOrCreateSheet ss "users"
  let existingUsers := readUsersFromSheet ss
  let mergedUsers := mergeUsersList existingUsers newUsers
  match writeUsersToSheet mergedUsers ss1 with
  | .error e => .error e
  | .ok ss2 => .ok (ss2, mergedUsers)

/-- C6: the empty-input half of the claim fails on the code: `validate`
on `[]` does not succeed but crashes with a `TypeError` while evaluating
`data[0].length`, although `[]` is (vacuously) rectangular; the
non-rectangular and singleton examples behave as claimed. -/
theorem validateData_cases :
    validateData [.arr ["a", "b"], .arr ["c"]] =
        .error (.err "All rows must have the same length") ∧
      validateData [.arr ["a"]] = .ok () ∧
      validateData [.nonArr] = .error (.err "Data must be a 2D array") ∧
      validateData [] = .error (.typeError
        "Cannot read properties of undefined (reading 'length')") :=
  ⟨rfl, rfl, rfl, rfl⟩

/-- C7: writing an empty row sequence does not clear the table and
return: for every sheet name and spreadsheet it raises the `TypeError`
coming from `validateData([])`, before the sheet is even looked up. -/
theorem writeMapToSheet_empty_raises (sheetName : String) (ss : Spreadsheet) :
    writeMapToSheet [] sheetName ss = .error (.typeError
      "Cannot read properties of undefined (reading 'length')") := rfl

/-- Rectangular nonempty data passes `validateData`. -/
theorem validateData_rect (first : List String) (rest : List (List String))
    (h : ∀ r ∈ rest, r.length = first.length) :
    validateData ((first :: rest).map JsVal.arr) = .ok () := by
  rw [List.map_cons]
  have hall : (JsVal.arr first :: rest.map JsVal.arr).all JsVal.isArr = true := by
    rw [List.all_eq_true]
    intro x hx
    rcases List.mem_cons.mp hx with h0 | h0
    · rw [h0]; rfl
    · obtain ⟨r, _, hr⟩ := List.mem_map.mp h0
      rw [← hr]; rfl
  have hlen : (JsVal.arr first :: rest.map JsVal.arr).all
      (fun row => row.rowLength == (JsVal.arr first).rowLength) = true := by
    rw [List.all_eq_true]
    intro x hx
    rcases List.mem_cons.mp hx with h0 | h0
    · rw [h0]; simp
    · obtain ⟨r, hr0, hr⟩ := List.mem_map.mp h0
      rw [← hr]
      show (r.length == first.length) = true
      rw [h r hr0]
      simp
  unfold validateData
  rw [hall]
  rw [if_neg (by simp)]
  show (if ((JsVal.arr first :: rest.map JsVal.arr).all
      (fun row => row.rowLength == (JsVal.arr first).rowLength)) = true then
      (Except.ok () : Except JsError Unit)
    else .error (.err "All rows must have the same length")) = .ok ()
  rw [if_pos hlen]

/-- C10: the row set built by `writeUsersToSheet` is always rectangular
with every row of length 3, so the shape validation inside the write
succeeds and the write never raises on this path, whatever users (valid
or not) are passed. -/
theorem writeUsersToSheet_never_shape_error (users : List User)
    (ss : Spreadsheet) :
    (∀ row ∈ buildUserRows users, row.length = 3) ∧
      validateData ((buildUserRows users).map JsVal.arr) = .ok () ∧
      ∃ ss2, writeUsersToSheet users ss = .ok ss2 := by
  have hlen : ∀ row ∈ buildUserRows users, row.length = 3 := by
    intro row hrow
    rcases List.mem_cons.mp hrow with h | h
    · rw [h]; rfl
    · obtain ⟨u, _, hu⟩ := List.mem_map.mp h
      rw [← hu]; rfl
  have hval : validateData ((buildUserRows users).map JsVal.arr) = .ok () := by
    unfold buildUserRows
    apply validateData_rect
    intro r hr
    obtain ⟨u, _, hu⟩ := List.mem_map.mp hr
    rw [← hu]; rfl
  refine ⟨hlen, hval, ?_⟩
  unfold writeUsersToSheet writeMapToSheet
  rw [hval]
  exact ⟨_, rfl⟩

/-- After `getOrCreateSheet` the named sheet exists. -/
theorem hasSheet_getOrCreateSheet (ss : Spreadsheet) (name : String) :
    (getOrCreateSheet ss name).any (fun p => p.1 == name) = true := by
  unfold getOrCreateSheet
  by_cases h : ss.any (fun p => p.1 == name) = true
  · rw [if_pos h]; exact h
  · rw [if_neg h, List.any_append]
    simp

/-- Overwriting a sheet's contents changes no sheet names. -/
theorem setSheet_keys (ss : Spreadsheet) (name : String) (rows : Sheet) :
    (setSheet ss name rows).any (fun p => p.1 == name) =
      ss.any (fun p => p.1 == name) := by
  unfold setSheet
  rw [list_any_comp_map]
  congr 1
  funext p
  by_cases hp : (p.1 == name) = true
  · simp only [Function.comp_apply, if_pos hp, hp]
    simp
  · simp only [Function.comp_apply, if_neg hp]

/-- Reading a sheet that was just overwritten returns the new contents,
provided the sheet exists. -/
theorem readSheet_setSheet (ss : Spreadsheet) (name : String) (rows : Sheet)
    (h : ss.any (fun p => p.1 == name) = true) :
    readSheet (setSheet ss name rows) name = rows := by
  induction ss with
  | nil => simp at h
  | cons p ps ih =>
    show readSheet
      ((if p.1 == name then (name, rows) else p) :: setSheet ps name rows)
        name = rows
    by_cases hp : (p.1 == name) = true
    · rw [if_pos hp]
      unfold readSheet
      rw [List.find?_cons_of_pos (p := fun q => q.1 == name)
        (a := ((name, rows) : String × Sheet)) _ (by simp)]
    · rw [if_neg hp]
      unfold readSheet
      rw [List.find?_cons_of_neg (p := fun q => q.1 == name) (a := p) _ hp]
      have hpf : (p.1 == name) = false := by
        revert hp; cases p.1 == name <;> simp
      rw [List.any_cons, hpf, Bool.false_or] at h
      exact ih h

/-- `getOrCreateSheet` leaves a spreadsheet that already has the sheet
unchanged. -/
theorem getOrCreateSheet_of_has (ss : Spreadsheet) (name : String)
    (h : ss.any (fun p => p.1 == name) = true) :
    getOrCreateSheet ss name = ss := by
  unfold getOrCreateSheet
  rw [if_pos h]

/-- Deserialising a serialised user gives the user back. -/
theorem rowToUser_userRow (u : User) : rowToUser (userRow u) = u := rfl

/-- C5: for every duplicate-free-or-not list of valid users (nonempty
`userId`, `name.id`, `name.name`), writing the list with
`writeUsersToSheet` and then reading with `readUsersFromSheet` succeeds
and returns exactly the written list (so in particular an equal set,
independent of order considerations). -/
theorem writeUsersToSheet_roundtrip (users : List User) (ss : Spreadsheet)
    (hvalid : ∀ u ∈ users, isValidUser u = true) :
    ∃ ss2, writeUsersToSheet users ss = .ok ss2 ∧
      readUsersFromSheet ss2 = users := by
  have hfilter : users.filter isValidUser = users :=
    List.filter_eq_self.mpr hvalid
  have hval : validateData ((buildUserRows users).map JsVal.arr) = .ok () := by
    unfold buildUserRows
    apply validateData_rect
    intro r hr
    obtain ⟨u, _, hu⟩ := List.mem_map.mp hr
    rw [← hu]; rfl
  have hwrite : writeUsersToSheet users ss =
      .ok (setSheet (setSheet (getOrCreateSheet ss "users") "users" [])
        "users" (buildUserRows users)) := by
    unfold writeUsersToSheet writeMapToSheet
    rw [hval]
    rfl
  refine ⟨_, hwrite, ?_⟩
  have hkey1 : (setSheet (getOrCreateSheet ss "users") "users" []).any
      (fun p => p.1 == "users") = true := by
    rw [setSheet_keys]
    exact hasSheet_getOrCreateSheet ss "users"
  have hkey2 : (setSheet (setSheet (getOrCreateSheet ss "users") "users" [])
      "users" (buildUserRows users)).any (fun p => p.1 == "users") = true := by
    rw [setSheet_keys]
    exact hkey1
  unfold readUsersFromSheet
  rw [getOrCreateSheet_of_has _ _ hkey2, readSheet_setSheet _ _ _ hkey1]
  unfold buildUserRows
  rw [hfilter]
  cases users with
  | nil => rfl
  | cons u us =>
    rw [if_neg (by simp)]
    show ((u :: us).map userRow).map rowToUser = u :: us
    rw [List.map_map]
    have : ∀ v ∈ u :: us, (rowToUser ∘ userRow) v = v := fun v _ =>
      rowToUser_userRow v
    calc ((u :: us).map (rowToUser ∘ userRow))
        = (u :: us).map id := List.map_congr_left this
      _ = u :: us := List.map_id _

/-- Concrete run of C5: two valid users written to an empty spreadsheet
are read back unchanged. -/
theorem writeUsersToSheet_roundtrip_witness :
    (∀ u ∈ ([⟨"U1", ⟨"a", "Alice"⟩⟩, ⟨"U2", ⟨"b", "Bob"⟩⟩] : List User),
      isValidUser u = true) ∧
    ∃ ss2, writeUsersToSheet [⟨"U1", ⟨"a", "Alice"⟩⟩, ⟨"U2", ⟨"b", "Bob"⟩⟩]
        [] = .ok ss2 ∧
      readUsersFromSheet ss2 = [⟨"U1", ⟨"a", "Alice"⟩⟩, ⟨"U2", ⟨"b", "Bob"⟩⟩] :=
  ⟨by decide, writeUsersToSheet_roundtrip _ [] (by decide)⟩

/-! ## Fetch and parse (`fetchAndParseUsers`) -/

/-- One failure record pushed by the `catch` in `fetchAndParseUsers`
(src/main.js line 327): the offending identifier together with the error
message. -/
structure FetchFailure where
  userId : String
  error : JsError
deriving Repr, DecidableEq

/-- Embedding of `SlackApi.userInfo` (src/main.js lines 125-132): reject
an empty id, otherwise consult the remote source, modelled as an oracle
mapping a user id to either a thrown error (`RemoteError`, transport
failure, ...) or the returned raw user object (`none` models a falsy
payload). -/
def userInfo (remote : String → Except JsError (Option SlackUser))
    (userId : String) : Except JsError (Option SlackUser) :=
  if userId = "" then
    .error (.err "userId must be a string which is NOT empty")
  else
    remote userId

/-- The body of the `try` in `fetchAndParseUsers` (src/main.js lines
323-325): fetch the detail and parse it; the first failure propagates to
the `catch`. -/
def processUser (remote : String → Except JsError (Option SlackUser))
    (userId : String) : Except JsError User :=
  match userInfo remote userId with
  | .error e => .error e
  | .ok raw => parseFromSlackUser raw

/-- Embedding of the per-identifier loop of `fetchAndParseUsers`
(src/main.js lines 318-332), over the identifier list returned by
`listUsersInChannel`: each identifier is processed in order; a success
is appended to the user list, a failure is caught and recorded with its
identifier in the error list, and the loop continues either way.  The
function is total: no failure escapes the per-identifier `try`. -/
def fetchAndParseUsers
    (remote : String → Except JsError (Option SlackUser)) :
    List String → List User × List FetchFailure
  | [] => ([], [])
  | userId :: rest =>
    let r := fetchAndParseUsers remote rest
    match processUser remote userId with
    | .ok u => (u :: r.1, r.2)
    | .error e => (r.1, ⟨userId, e⟩ :: r.2)

/-- C2: for every identifier sequence and every remote behaviour, the
fetch-and-parse phase returns (it cannot raise, its result is a plain
pair): the returned users are exactly the successfully processed
identifiers in order, the error list records exactly the failing
identifiers (each paired with its error) in order, and every identifier
is accounted for (`users + errors = identifiers`), so processing
continues through the whole sequence past any failure. -/
theorem fetchAndParseUsers_failure_containment
    (remote : String → Except JsError (Option SlackUser))
    (userIds : List String) :
    (fetchAndParseUsers remote userIds).1 =
        userIds.filterMap (fun i => (processUser remote i).toOption) ∧
      (fetchAndParseUsers remote userIds).2 =
        userIds.filterMap (fun i =>
          match processUser remote i with
          | .ok _ => none
          | .error e => some ⟨i, e⟩) ∧
      (fetchAndParseUsers remote userIds).1.length +
          (fetchAndParseUsers remote userIds).2.length = userIds.length := by
  induction userIds with
  | nil => exact ⟨rfl, rfl, rfl⟩
  | cons i rest ih =>
    obtain ⟨ih1, ih2, ih3⟩ := ih
    cases h : processUser remote i with
    | ok u =>
      have hstep1 : (fetchAndParseUsers remote (i :: rest)).1 =
          u :: (fetchAndParseUsers remote rest).1 := by
        simp [fetchAndParseUsers, h]
      have hstep2 : (fetchAndParseUsers remote (i :: rest)).2 =
          (fetchAndParseUsers remote rest).2 := by
        simp [fetchAndParseUsers, h]
      have e1 : List.filterMap (fun j => (processUser remote j).toOption)
          (i :: rest) =
          u :: List.filterMap (fun j => (processUser remote j).toOption)
            rest := by
        simp [List.filterMap_cons, h, Except.toOption]
      have e2 : List.filterMap (fun j =>
            match processUser remote j with
            | .ok _ => none
            | .error er => some (⟨j, er⟩ : FetchFailure)) (i :: rest) =
          List.filterMap (fun j =>
            match processUser remote j with
            | .ok _ => none
            | .error er => some (⟨j, er⟩ : FetchFailure)) rest := by
        simp [List.filterMap_cons, h]
      refine ⟨by rw [hstep1, e1, ih1], by rw [hstep2, e2, ih2], ?_⟩
      rw [hstep1, hstep2]
      simp only [List.length_cons]
      omega
    | error e =>
      have hstep1 : (fetchAndParseUsers remote (i :: rest)).1 =
          (fetchAndParseUsers remote rest).1 := by
        simp [fetchAndParseUsers, h]
      have hstep2 : (fetchAndParseUsers remote (i :: rest)).2 =
          (⟨i, e⟩ : FetchFailure) :: (fetchAndParseUsers remote rest).2 := by
        simp [fetchAndParseUsers, h]
      have e1 : List.filterMap (fun j => (processUser remote j).toOption)
          (i :: rest) =
          List.filterMap (fun j => (processUser remote j).toOption) rest := by
        simp [List.filterMap_cons, h, Except.toOption]
      have e2 : List.filterMap (fun j =>
            match processUser remote j with
            | .ok _ => none
            | .error er => some (⟨j, er⟩ : FetchFailure)) (i :: rest) =
          (⟨i, e⟩ : FetchFailure) :: List.filterMap (fun j =>
            match processUser remote j with
            | .ok _ => none
            | .error er => some (⟨j, er⟩ : FetchFailure)) rest := by
        simp [List.filterMap_cons, h]
      refine ⟨by rw [hstep1, e1, ih1], by rw [hstep2, e2, ih2], ?_⟩
      rw [hstep1, hstep2]
      simp only [List.length_cons]
      omega

/-! ## Pagination (`SlackApi.listUsersInChannel`) -/

/-- One page of the `conversations.members` response: the member ids and
the optional `response_metadata.next_cursor`. -/
structure PageResponse where
  members : List String
  next_cursor : Option String
deriving Repr, DecidableEq

/-- JS truthiness of the cursor, as tested by `while (nextCursor)` and
by the spread `...(nextCursor && { cursor: nextCursor })`
(src/main.js lines 100, 114): a missing cursor and the empty string are
both falsy. -/
def cursorTruthy : Option String → Bool
  | none => false
  | some s => !(s == "")

/-- The do-while loop of `listUsersInChannel` (src/main.js lines
93-114), with the remote source modelled as an oracle from the cursor
sent in the request (no cursor on the first request) to the page
response.  `fuel` bounds the number of iterations so the function is
total; the `none` result reports fuel exhaustion and never occurs when
the source stops returning cursors within `fuel` pages. -/
def listUsersLoop (src : Option String → PageResponse) :
    Nat → Option String → Option (List String)
  | 0, _ => none
  | fuel + 1, cursor =>
    let resp := src cursor
    if cursorTruthy resp.next_cursor then
      match listUsersLoop src fuel resp.next_cursor with
      | some rest => some (resp.members ++ rest)
      | none => none
    else
      some resp.members

/-- Embedding of `SlackApi.listUsersInChannel` (src/main.js lines
88-117): reject an empty channel id, then run the pagination loop
starting from the cursorless request. -/
def listUsersInChannel (src : Option String → PageResponse) (fuel : Nat)
    (channelId : String) : Except JsError (Option (List String)) :=
  if channelId = "" then
    .error (.err "channelId must be a string which is NOT empty")
  else
    .ok (listUsersLoop src fuel none)

/-- `checkTrace src c pages = true` states that, starting from request
cursor `c`, the source answers with exactly the pages of `pages` in
order: each non-final page carries a truthy continuation cursor which is
the cursor of the next request, and the final page carries a falsy
cursor (cursor exhaustion). -/
def checkTrace (src : Option String → PageResponse) :
    Option String → List PageResponse → Bool
  | _, [] => false
  | c, [p] => src c == p && !(cursorTruthy p.next_cursor)
  | c, p :: q :: rest =>
    src c == p && cursorTruthy p.next_cursor &&
      checkTrace src p.next_cursor (q :: rest)

/-- The pagination loop consumes a full trace: it follows every returned
cursor, stops exactly at the first falsy cursor, and accumulates the
members of all pages in order. -/
theorem listUsersLoop_trace (src : Option String → PageResponse) :
    ∀ (pages : List PageResponse) (c : Option String) (fuel : Nat),
      checkTrace src c pages = true → pages.length ≤ fuel →
      listUsersLoop src fuel c =
        some ((pages.map PageResponse.members).flatten) := by
  intro pages
  induction pages with
  | nil =>
    intro c fuel h _
    simp [checkTrace] at h
  | cons p rest ih =>
    intro c fuel h hle
    cases rest with
    | nil =>
      rw [show checkTrace src c [p] =
        (src c == p && !(cursorTruthy p.next_cursor)) from rfl,
        Bool.and_eq_true] at h
      obtain ⟨h1, h2⟩ := h
      have hc : src c = p := beq_iff_eq.mp h1
      have h2' : cursorTruthy p.next_cursor = false := by
        revert h2; cases cursorTruthy p.next_cursor <;> simp
      cases fuel with
      | zero => simp at hle
      | succ n =>
        simp only [listUsersLoop, hc, h2', Bool.false_eq_true, if_false]
        simp [List.flatten]
    | cons q rest2 =>
      rw [show checkTrace src c (p :: q :: rest2) =
        (src c == p && cursorTruthy p.next_cursor &&
          checkTrace src p.next_cursor (q :: rest2)) from rfl,
        Bool.and_eq_true, Bool.and_eq_true] at h
      obtain ⟨⟨h1, h2⟩, h3⟩ := h
      have hc : src c = p := beq_iff_eq.mp h1
      cases fuel with
      | zero => simp at hle
      | succ n =>
        have hlen : (q :: rest2).length ≤ n := by
          simp only [List.length_cons] at hle ⊢
          omega
        simp only [listUsersLoop, hc, h2, if_true]
        rw [ih p.next_cursor n h3 hlen]
        simp [List.flatten]

/-- C4: for every non-empty channel id and every source whose response
pages, starting from the cursorless first request and following each
returned cursor, reach a page with no continuation cursor after finitely
many pages, `listUsersInChannel` keeps issuing the next request with the
returned cursor until no cursor is returned, and returns the identifiers
of all pages concatenated in the order returned, without error; in
particular a trace with one empty cursorless page (an empty scope)
yields the empty sequence, not an error. -/
theorem listUsersInChannel_pagination (src : Option String → PageResponse)
    (channelId : String) (pages : List PageResponse) (fuel : Nat)
    (hch : channelId ≠ "")
    (htr : checkTrace src none pages = true)
    (hfuel : pages.length ≤ fuel) :
    listUsersInChannel src fuel channelId =
      .ok (some ((pages.map PageResponse.members).flatten)) := by
  unfold listUsersInChannel
  rw [if_neg hch, listUsersLoop_trace src pages none fuel htr hfuel]

/-- The simulated source of the spec's pagination test: pages of size 2
with cursors `c1`, `c2`, then no cursor. -/
def srcPages (c : Option String) : PageResponse :=
  match c with
  | none => ⟨["u1", "u2"], some "c1"⟩
  | some "c1" => ⟨["u3", "u4"], some "c2"⟩
  | some "c2" => ⟨["u5", "u6"], none⟩
  | some _ => ⟨[], none⟩

/-- The trace of `srcPages` from the cursorless request. -/
def srcPagesTrace : List PageResponse :=
  [⟨["u1", "u2"], some "c1"⟩, ⟨["u3", "u4"], some "c2"⟩,
    ⟨["u5", "u6"], none⟩]

/-- Concrete run of C4: the simulated three-page source yields all six
identifiers across three calls. -/
theorem listUsersInChannel_pagination_witness :
    (("C123" : String) ≠ "" ∧ checkTrace srcPages none srcPagesTrace = true ∧
      srcPagesTrace.length ≤ 3) ∧
    (srcPagesTrace.map PageResponse.members).flatten =
      ["u1", "u2", "u3", "u4", "u5", "u6"] ∧
    listUsersInChannel srcPages 3 "C123" =
      .ok (some ((srcPagesTrace.map PageResponse.members).flatten)) :=
  ⟨⟨by decide, by decide, by decide⟩, rfl,
    listUsersInChannel_pagination srcPages "C123" srcPagesTrace 3
      (by decide) (by decide) (by decide)⟩

end SlackUserExporter
